import Mathlib

/-!
Verification development for the secure-openclaw messaging gateway.

The definitions below are shallow embeddings of the JavaScript sources:
  src/gateway.js                  (approval broker, inbound dispatch, cron execution)
  src/commands/handler.js         (slash commands, pending model/provider selections)
  src/providers/claude-provider.js
  src/providers/opencode-provider.js
JavaScript Maps keyed by chat identifier are modeled as functions
String to Option, timers as explicit lists of live timer records, and
promise resolutions as an append-only log of (registration id, value)
pairs, where the value none models resolving with null.
-/

namespace SecureOpenclaw

/-- Update one key of a string-keyed map; models JS Map set (with some v)
and Map delete (with none). -/
def upd {α : Type} (m : String → Option α) (k : String) (v : Option α) :
    String → Option α :=
  fun x => if x = k then v else m x

/-! ## Approval broker (src/gateway.js)

State of the pendingApprovals map, the setTimeout timers attached to the
pending entries, and the log of promise resolutions.  Each call of
waitForApproval gets a fresh registration id (nextId); activeTimers holds
the (registration id, chatId) pairs whose timers have been created and
neither cleared nor fired. -/

structure ApprovalState where
  pendingApprovals : String → Option Nat
  activeTimers : List (Nat × String)
  resolutions : List (Nat × Option String)
  nextId : Nat

def approvalInit : ApprovalState :=
  { pendingApprovals := fun _ => none, activeTimers := [], resolutions := [], nextId := 0 }

/-- Remove the timer record of registration r for chat c; models clearTimeout. -/
def clearTimer (l : List (Nat × String)) (r : Nat) (c : String) : List (Nat × String) :=
  l.filter fun p => !(decide (p = (r, c)))

/-- Gateway.waitForApproval, src/gateway.js lines 140 to 165.  First any
existing pending approval for the chat is superseded: its timeout is
cleared and its promise resolved with null.  Then a fresh timer is created
and the new entry registered.  The sendOk flag distinguishes the success
path of adapter.sendMessage from the catch branch, which clears the fresh
timer, deletes the fresh entry and resolves the new promise with null. -/
def waitForApproval (s : ApprovalState) (c : String) (sendOk : Bool) : ApprovalState :=
  let s1 : ApprovalState :=
    match s.pendingApprovals c with
    | some r =>
        { s with activeTimers := clearTimer s.activeTimers r c,
                 resolutions := s.resolutions ++ [(r, none)] }
    | none => s
  let s2 : ApprovalState :=
    { s1 with pendingApprovals := upd s1.pendingApprovals c (some s.nextId),
              activeTimers := (s.nextId, c) :: s1.activeTimers,
              nextId := s.nextId + 1 }
  if sendOk then s2
  else
    { s2 with pendingApprovals := upd s2.pendingApprovals c none,
              activeTimers := clearTimer s2.activeTimers s.nextId c,
              resolutions := s2.resolutions ++ [(s.nextId, none)] }

/-- Body of the setTimeout callback in waitForApproval (src/gateway.js lines
149 to 152): delete the map entry for the chat and resolve with null.  The
fired timer is no longer active, so its record is removed as well.  Only
enabled (see AStep.fire) while the timer is in activeTimers. -/
def timerFire (s : ApprovalState) (r : Nat) (c : String) : ApprovalState :=
  { s with activeTimers := clearTimer s.activeTimers r c,
           pendingApprovals := upd s.pendingApprovals c none,
           resolutions := s.resolutions ++ [(r, none)] }

/-- Approval branch of the inbound message handler (src/gateway.js lines 282
to 290): when a pending approval exists for the chat, clear its timeout,
delete the entry and resolve its promise with the message text. -/
def approvalReply (s : ApprovalState) (c text : String) : ApprovalState :=
  match s.pendingApprovals c with
  | some r =>
      { s with activeTimers := clearTimer s.activeTimers r c,
               pendingApprovals := upd s.pendingApprovals c none,
               resolutions := s.resolutions ++ [(r, some text)] }
  | none => s

/-- Event-loop steps that touch the approval registry. -/
inductive AStep : ApprovalState → ApprovalState → Prop
  | wait (s : ApprovalState) (c : String) (sendOk : Bool) :
      AStep s (waitForApproval s c sendOk)
  | fire (s : ApprovalState) (r : Nat) (c : String)
      (hmem : (r, c) ∈ s.activeTimers) : AStep s (timerFire s r c)
  | reply (s : ApprovalState) (c text : String) : AStep s (approvalReply s c text)

inductive AReachable : ApprovalState → Prop
  | init : AReachable approvalInit
  | step {s t : ApprovalState} : AReachable s → AStep s t → AReachable t

def ids (l : List (Nat × Option String)) : List Nat := l.map Prod.fst

/-- Invariant of the approval registry: the map entry and the live timer of
a registration exist together, ids are allocated once, and a registration
still pending has never been resolved. -/
structure AInv (s : ApprovalState) : Prop where
  timerPending : ∀ r c, (r, c) ∈ s.activeTimers → s.pendingApprovals c = some r
  pendingTimer : ∀ r c, s.pendingApprovals c = some r → (r, c) ∈ s.activeTimers
  timerLt : ∀ r c, (r, c) ∈ s.activeTimers → r < s.nextId
  timerUnresolved : ∀ r c, (r, c) ∈ s.activeTimers → r ∉ ids s.resolutions
  timerIdsNodup : (s.activeTimers.map Prod.fst).Nodup
  resIdsNodup : (ids s.resolutions).Nodup
  resLt : ∀ r, r ∈ ids s.resolutions → r < s.nextId

/-! ## Pending selections (src/commands/handler.js)

The /model and /provider menus each keep their own Map from chatId to the
resolve callback of the awaiting command (pendingModelSelect and
pendingProviderSelect), plus a 30 second setTimeout per registration whose
callback is guarded only by Map.has(chatId); the timer is never cleared.
SelState models one such registry.  Note the contrast with waitForApproval:
selRegister overwrites any existing entry without resolving it. -/

def jsWhitespace : List Char := [' ', '\t', '\n', '\r']

/-- The ASCII core of String.prototype.trim. -/
def trimChars (l : List Char) : List Char :=
  ((l.dropWhile (fun ch => ch ∈ jsWhitespace)).reverse.dropWhile
    (fun ch => ch ∈ jsWhitespace)).reverse

/-- The ASCII core of String.prototype.toLowerCase, per character. -/
def lowerChar (ch : Char) : Char :=
  if 'A' ≤ ch ∧ ch ≤ 'Z' then Char.ofNat (ch.toNat + 32) else ch

structure SelState where
  pending : String → Option Nat
  timers : List (Nat × String)
  resolutions : List (Nat × Option String)
  nextId : Nat

def selInit : SelState :=
  { pending := fun _ => none, timers := [], resolutions := [], nextId := 0 }

/-- Registration step of handleModel and handleProvider with no argument
(src/commands/handler.js lines 267 to 275 and 319 to 327): set the map entry
for the chat (overwriting any existing one) and create a 30 second timer. -/
def selRegister (s : SelState) (c : String) : SelState :=
  { pending := upd s.pending c (some s.nextId),
    timers := (s.nextId, c) :: s.timers,
    resolutions := s.resolutions,
    nextId := s.nextId + 1 }

/-- Body of the 30 second setTimeout callback of registration r for chat c
(src/commands/handler.js lines 269 to 274): if the map still has any entry
for the chat, delete that entry and resolve the promise of registration r
with null.  The fired timer is removed from the live timer list. -/
def selTimerFire (s : SelState) (r : Nat) (c : String) : SelState :=
  match s.pending c with
  | some _ =>
      { s with timers := clearTimer s.timers r c,
               pending := upd s.pending c none,
               resolutions := s.resolutions ++ [(r, none)] }
  | none => { s with timers := clearTimer s.timers r c }

/-- CommandHandler.handlePendingReply branch for one registry
(src/commands/handler.js lines 82 to 96): if the chat has a pending
selection, delete the entry and resolve it with the trimmed message text.
No clearTimeout happens here; the timer keeps running. -/
def selReply (s : SelState) (c text : String) : SelState :=
  match s.pending c with
  | some r =>
      { s with pending := upd s.pending c none,
               resolutions := s.resolutions ++ [(r, some (String.mk (trimChars text.toList)))] }
  | none => s

/-! ## Slash command parsing (src/commands/handler.js)

Text is handled as its list of characters to model the index arithmetic of
indexOf and slice; trim and toLowerCase are modeled for the ASCII range
(JS trim also strips rarer unicode spaces, irrelevant for command
syntax). -/

/-- CommandHandler.isCommand, src/commands/handler.js lines 17 to 19:
text.trim().startsWith(slash). -/
def isCommand (text : String) : Bool :=
  match trimChars text.toList with
  | ch :: _ => ch = '/'
  | [] => false

/-- CommandHandler.parse, src/commands/handler.js lines 24 to 34. -/
def parseCommand (text : String) : String × String :=
  let t := trimChars text.toList
  match t.findIdx? (fun ch => ch = ' ') with
  | none => (String.mk ((t.drop 1).map lowerChar), "")
  | some i =>
      (String.mk (((t.drop 1).take (i - 1)).map lowerChar),
       String.mk (trimChars (t.drop (i + 1))))

/-- Commands of the dispatch table in CommandHandler.execute
(src/commands/handler.js lines 47 to 76); the default branch returns
handled false. -/
def knownCommands : List String :=
  ["new", "reset", "status", "memory", "queue", "help", "stop", "model", "provider"]

/-- Whether CommandHandler.execute returns handled true for the text. -/
def commandHandled (text : String) : Bool :=
  isCommand text && knownCommands.contains (parseCommand text).1

/-! ## Inbound dispatch pipeline (src/gateway.js setupAdapter) -/

/-- Which pipeline stage consumed an inbound message. -/
inductive Stage
  | approval
  | selection
  | command
  | run
  deriving DecidableEq

structure PipelineState where
  approvals : ApprovalState
  modelSel : SelState
  providerSel : SelState
  cmdLog : List String
  runQueue : List (String × String)

def pipelineInit : PipelineState :=
  { approvals := approvalInit, modelSel := selInit, providerSel := selInit,
    cmdLog := [], runQueue := [] }

/-- The onMessage handler installed by Gateway.setupAdapter (src/gateway.js
lines 282 to 334) combined with CommandHandler.handlePendingReply
(src/commands/handler.js lines 82 to 96): first a pending approval for the
chat consumes the message, else a pending model selection, else a pending
provider selection, else slash-command handling is attempted, and only
otherwise is the message enqueued as an agent run.  The command stage is
recorded as a log entry (its body is modeled separately), and the run stage
as an appended enqueueRun call (sessionKey, text). -/
def onMessageDispatch (s : PipelineState) (chatId sessionKey text : String) :
    Stage × PipelineState :=
  match s.approvals.pendingApprovals chatId with
  | some _ =>
      (Stage.approval, { s with approvals := approvalReply s.approvals chatId text })
  | none =>
    match s.modelSel.pending chatId with
    | some _ =>
        (Stage.selection, { s with modelSel := selReply s.modelSel chatId text })
    | none =>
      match s.providerSel.pending chatId with
      | some _ =>
          (Stage.selection, { s with providerSel := selReply s.providerSel chatId text })
      | none =>
          if commandHandled text then
            (Stage.command, { s with cmdLog := s.cmdLog ++ [text] })
          else
            (Stage.run, { s with runQueue := s.runQueue ++ [(sessionKey, text)] })

def pipelineEx : PipelineState :=
  { pipelineInit with approvals := waitForApproval approvalInit "c" true }

/-! ## Cron execution (src/gateway.js setupCronExecution) -/

structure CronJob where
  jobId : String
  platform : String
  chatId : String
  sessionKey : Option String
  message : String
  invokeAgent : Bool

/-- Ways the gateway can invoke the agent: enqueueRun is the entry point of
the Run Coordinator (AgentRunner), used by the inbound pipeline in
src/gateway.js line 328; runAndCollect is a direct call on the inner agent,
used by the cron handler in src/gateway.js line 113, which does not pass
through the per-session queue of the runner. -/
inductive AgentCall
  | enqueueRun (sessionKey text : String)
  | runAndCollect (sessionKey text : String)
  deriving DecidableEq

inductive CronEffect
  | agentThenSend (call : AgentCall) (chatId : String)
  | sendLiteral (chatId text : String)
  | skippedNoAdapter
  deriving DecidableEq

/-- Session key defaulting in src/gateway.js line 115: the JS expression
sessionKey or cron:jobId falls back when sessionKey is null, undefined or
the empty string (all falsy). -/
def resolveCronSessionKey (sk : Option String) (jobId : String) : String :=
  match sk with
  | some s => if s = "" then "cron:" ++ jobId else s
  | none => "cron:" ++ jobId

/-- The cron execute handler of Gateway.setupCronExecution, src/gateway.js
lines 98 to 134: without an adapter for the platform the job is skipped;
with invokeAgent true the handler calls agentRunner.agent.runAndCollect and
sends the response to the chat; with invokeAgent false it sends the literal
message text. -/
def executeCronJob (hasAdapter : Bool) (j : CronJob) : CronEffect :=
  if !hasAdapter then CronEffect.skippedNoAdapter
  else if j.invokeAgent then
    CronEffect.agentThenSend
      (AgentCall.runAndCollect (resolveCronSessionKey j.sessionKey j.jobId) j.message)
      j.chatId
  else CronEffect.sendLiteral j.chatId j.message

/-- Whether a cron effect routes the message through the Run Coordinator
entry point (enqueueRun), as a normal inbound message would be routed. -/
def usesRunCoordinator : CronEffect → Bool
  | CronEffect.agentThenSend (AgentCall.enqueueRun _ _) _ => true
  | _ => false

def cronJobEx : CronJob :=
  { jobId := "job1", platform := "whatsapp", chatId := "room",
    sessionKey := some "wa:room", message := "daily summary", invokeAgent := true }

/-! ## Provider abort (src/providers) -/

structure ClaudeProviderState where
  sessions : String → Option String
  abortControllers : String → Option Nat
  currentModel : Option String

/-- ClaudeProvider.abort, src/providers/claude-provider.js lines 31 to 39:
look up the abort controller for the chat; if present, signal it, delete the
tracking entry and return true, otherwise return false.  The result carries
the returned flag, the provider state afterwards, and the id of the
controller that was signaled (none when nothing was in flight). -/
def ClaudeProvider.abort (s : ClaudeProviderState) (chatId : String) :
    Bool × ClaudeProviderState × Option Nat :=
  match s.abortControllers chatId with
  | some ctl =>
      (true, { s with abortControllers := upd s.abortControllers chatId none }, some ctl)
  | none => (false, s, none)

structure OpencodeProviderState where
  sessions : String → Option String
  abortControllers : String → Option Nat
  currentModel : Option String
  mcpRegistered : Bool

/-- OpencodeProvider.abort, src/providers/opencode-provider.js lines 36 to
44: same shape as the claude variant. -/
def OpencodeProvider.abort (s : OpencodeProviderState) (chatId : String) :
    Bool × OpencodeProviderState × Option Nat :=
  match s.abortControllers chatId with
  | some ctl =>
      (true, { s with abortControllers := upd s.abortControllers chatId none }, some ctl)
  | none => (false, s, none)

def claudeIdleEx : ClaudeProviderState :=
  { sessions := fun _ => none, abortControllers := fun _ => none, currentModel := none }

def claudeBusyEx : ClaudeProviderState :=
  { sessions := upd (fun _ => none) "chat1" (some "sess-9"),
    abortControllers := upd (fun _ => none) "chat1" (some 7),
    currentModel := none }

def opencodeIdleEx : OpencodeProviderState :=
  { sessions := fun _ => none, abortControllers := fun _ => none,
    currentModel := none, mcpRegistered := false }

def opencodeBusyEx : OpencodeProviderState :=
  { sessions := upd (fun _ => none) "chat1" (some "oc-3"),
    abortControllers := upd (fun _ => none) "chat1" (some 4),
    currentModel := none, mcpRegistered := true }

/-! ## Provider switching (src/commands/handler.js switchProvider) -/

structure ProviderConfig where
  allowedTools : List String
  maxTurns : Nat
  model : Option String
  deriving DecidableEq

/-- One provider instance as seen by the agent: its kind name, the
configuration it was constructed with, and its per-chat backend session
tokens and abort controllers. -/
structure ProviderHandle where
  name : String
  config : ProviderConfig
  sessions : String → Option String
  abortControllers : String → Option Nat
  currentModel : Option String

/-- Modelled from the spec: getProvider lives in src/providers/index.js,
which is not under src.  Per sections 4.2 and 9 of the spec and the
constructors in src/providers/claude-provider.js and
src/providers/opencode-provider.js, it constructs a fresh provider instance
of the requested kind with the given configuration; a fresh instance tracks
no sessions, no abort controllers and no model override. -/
def getProvider (name : String) (config : ProviderConfig) : ProviderHandle :=
  { name := name, config := config, sessions := fun _ => none,
    abortControllers := fun _ => none, currentModel := none }

/-- Agent state other than the provider and the session registry, untouched
by switchProvider; kept opaque as a field bundle. -/
structure AgentRest where
  memoryDir : String
  maxTurns : Nat
  deriving DecidableEq

structure AgentState where
  provider : ProviderHandle
  providerName : String
  sessions : String → Option String
  rest : AgentRest

/-- CommandHandler.switchProvider, src/commands/handler.js lines 341 to 348:
read the old provider configuration, construct the new provider with it,
install it with its name, and clear the agent session map. -/
def switchProvider (a : AgentState) (providerName : String) : AgentState :=
  let config := a.provider.config
  { a with provider := getProvider providerName config,
           providerName := providerName,
           sessions := fun _ => none }

/-! ## Run Coordinator (modelled from the spec) -/

/-- Modelled from the spec: the Run Coordinator (agent/runner.js) is not
under src.  Per section 4.1 of the spec, the runner keeps, per session key,
a FIFO list of pending runs plus a currently processing slot; on enqueue a
run starts immediately if the slot is free and is appended otherwise; when
the active run completes (success, failure or abort) the next queued run is
popped, or the slot is cleared.  Run ids number the enqueue order;
completed records the completion order.  Distinct session keys hold
independent copies of this state, so one key is modeled. -/
structure CoordState where
  processing : Option Nat
  queue : List Nat
  completed : List Nat
  nextId : Nat

def coordInit : CoordState :=
  { processing := none, queue := [], completed := [], nextId := 0 }

def coordEnqueue (s : CoordState) : CoordState :=
  match s.processing with
  | none => { s with processing := some s.nextId, nextId := s.nextId + 1 }
  | some _ => { s with queue := s.queue ++ [s.nextId], nextId := s.nextId + 1 }

def coordFinish (s : CoordState) : CoordState :=
  match s.processing with
  | none => s
  | some r =>
      { s with completed := s.completed ++ [r],
               processing := s.queue.head?,
               queue := s.queue.tail }

inductive CoordReachable : CoordState → Prop
  | init : CoordReachable coordInit
  | enq {s : CoordState} : CoordReachable s → CoordReachable (coordEnqueue s)
  | fin {s : CoordState} : CoordReachable s → CoordReachable (coordFinish s)

def coordEnqueueN : Nat → CoordState
  | 0 => coordInit
  | n + 1 => coordEnqueue (coordEnqueueN n)

/-- Invariant of the per-key coordinator state: the completion log, the
processing slot and the queue partition the allocated run ids in order, and
the queue is only nonempty while a run is processing. -/
def CoordInv (s : CoordState) : Prop :=
  s.completed ++ s.processing.toList ++ s.queue = List.range s.nextId
  ∧ (s.queue ≠ [] → s.processing.isSome)

/-! ## Opencode stream normalization (src/providers/opencode-provider.js)

The event loop of OpencodeProvider.query, src/providers/opencode-provider.js
lines 189 to 284, restricted to the per-part normalization mechanism: the
session filter and the skip of the echoed user message happen before these
branches and are not modeled; text bodies are modeled as character lists to
mirror the index arithmetic of length and slice. -/

inductive OcPart
  | text (partId : String) (fullText : List Char)
  | reasoning (partId : String) (fullText : List Char)
  | tool (toolId : String) (pending : Bool)
  | toolResult (toolId : String)
  deriving DecidableEq

inductive OcOut
  | textDelta (partId : String) (delta : List Char) (isReasoning : Bool)
  | toolUse (toolId : String)
  | toolRes (toolId : String)
  deriving DecidableEq

/-- Streaming state of the loop: lastYieldedLength (absent keys read as 0)
and the yieldedToolCalls set. -/
structure OcStreamState where
  lastYieldedLength : String → Nat
  yieldedToolCalls : List String

def ocInit : OcStreamState :=
  { lastYieldedLength := fun _ => 0, yieldedToolCalls := [] }

/-- One iteration of the event loop body (src/providers/opencode-provider.js
lines 214 to 274): a text or reasoning part yields the suffix beyond the
last yielded length when the cumulative text grew, a tool part is announced
once per tool id unless still pending, a tool result is passed through. -/
def ocStep (s : OcStreamState) (e : OcPart) : OcStreamState × List OcOut :=
  match e with
  | OcPart.text pid full =>
      let prev := s.lastYieldedLength pid
      if prev < full.length then
        ({ s with lastYieldedLength := fun x => if x = pid then full.length else s.lastYieldedLength x },
         [OcOut.textDelta pid (full.drop prev) false])
      else (s, [])
  | OcPart.reasoning pid full =>
      let prev := s.lastYieldedLength pid
      if prev < full.length then
        ({ s with lastYieldedLength := fun x => if x = pid then full.length else s.lastYieldedLength x },
         [OcOut.textDelta pid (full.drop prev) true])
      else (s, [])
  | OcPart.tool tid pending =>
      if tid ∈ s.yieldedToolCalls then (s, [])
      else if pending then (s, [])
      else ({ s with yieldedToolCalls := tid :: s.yieldedToolCalls },
            [OcOut.toolUse tid])
  | OcPart.toolResult tid => (s, [OcOut.toolRes tid])

def ocRun (s : OcStreamState) : List OcPart → OcStreamState × List OcOut
  | [] => (s, [])
  | e :: es =>
      let p1 := ocStep s e
      let p2 := ocRun p1.1 es
      (p2.1, p1.2 ++ p2.2)

/-- The successive cumulative snapshots the backend publishes for a text
part. -/
def snapshotsFor (pid : String) (es : List OcPart) : List (List Char) :=
  es.filterMap fun e =>
    match e with
    | OcPart.text p f => if p = pid then some f else none
    | _ => none

/-- The plain text deltas the adapter yields for a part. -/
def deltasFor (pid : String) (outs : List OcOut) : List (List Char) :=
  outs.filterMap fun o =>
    match o with
    | OcOut.textDelta p d false => if p = pid then some d else none
    | _ => none

/-- Monotone growth of cumulative snapshots: each one extends the previous
(the first extends t). -/
def growsFrom (t : List Char) : List (List Char) → Prop
  | [] => True
  | a :: l => (∃ u, a = t ++ u) ∧ growsFrom a l

/-- The event list mentions no reasoning part with this part id (text and
reasoning parts have distinct part ids in a stream; both share the
lastYieldedLength map). -/
def reasoningFreeFor (pid : String) (es : List OcPart) : Prop :=
  ∀ f, OcPart.reasoning pid f ∉ es

/-- How many tool announcement events carry the given tool id. -/
def toolUseCount (tid : String) (outs : List OcOut) : Nat :=
  outs.count (OcOut.toolUse tid)

def ocStreamEx : List OcPart :=
  [OcPart.text "p1" ("Hel".toList),
   OcPart.tool "t1" true,
   OcPart.tool "t1" false,
   OcPart.text "p1" ("Hello ".toList),
   OcPart.tool "t1" false,
   OcPart.text "p1" ("Hello world".toList)]

theorem upd_same {α : Type} (m : String → Option α) (k : String) (v : Option α) :
    upd m k v k = v := by
  simp [upd]

theorem upd_other {α : Type} (m : String → Option α) (k x : String) (v : Option α)
    (h : x ≠ k) : upd m k v x = m x := by
  simp [upd, h]

theorem mem_clearTimer {l : List (Nat × String)} {r : Nat} {c : String}
    {p : Nat × String} : p ∈ clearTimer l r c ↔ p ∈ l ∧ p ≠ (r, c) := by
  simp [clearTimer]

theorem clearTimer_map_fst_sublist (l : List (Nat × String)) (r : Nat) (c : String) :
    ((clearTimer l r c).map Prod.fst).Sublist (l.map Prod.fst) :=
  (List.filter_sublist l).map Prod.fst

theorem fst_mem_of_mem {l : List (Nat × String)} {r : Nat} {c : String}
    (h : (r, c) ∈ l) : r ∈ l.map Prod.fst :=
  List.mem_map.mpr ⟨(r, c), h, rfl⟩

theorem snd_eq_of_fst_nodup {l : List (Nat × String)}
    (hnd : (l.map Prod.fst).Nodup) {a : Nat} {b b' : String}
    (h1 : (a, b) ∈ l) (h2 : (a, b') ∈ l) : b = b' := by
  induction l with
  | nil => cases h1
  | cons hd tl ih =>
      simp only [List.map_cons, List.nodup_cons] at hnd
      rcases List.mem_cons.mp h1 with h1 | h1 <;>
        rcases List.mem_cons.mp h2 with h2 | h2
      · rw [← h2] at h1; exact congrArg Prod.snd h1
      · exact absurd (h1 ▸ fst_mem_of_mem h2 : hd.fst ∈ tl.map Prod.fst) hnd.1
      · exact absurd (h2 ▸ fst_mem_of_mem h1 : hd.fst ∈ tl.map Prod.fst) hnd.1
      · exact ih hnd.2 h1 h2

theorem ids_append (l : List (Nat × Option String)) (p : Nat × Option String) :
    ids (l ++ [p]) = ids l ++ [p.1] := by
  simp [ids]

theorem nodup_snoc {l : List Nat} {a : Nat} (hl : l.Nodup) (ha : a ∉ l) :
    (l ++ [a]).Nodup := by
  simp [List.nodup_append, hl, ha]

theorem ainv_wait {s : ApprovalState} (h : AInv s) (c : String) (ok : Bool) :
    AInv (waitForApproval s c ok) := by
  have hresn : s.nextId ∉ ids s.resolutions := fun hm =>
    absurd (h.resLt _ hm) (lt_irrefl _)
  have htimn : ∀ r, r ∈ s.activeTimers.map Prod.fst → r < s.nextId := by
    intro r hm
    rcases List.mem_map.mp hm with ⟨⟨r', c'⟩, hp, hr⟩
    exact hr ▸ h.timerLt r' c' hp
  have htimn' : s.nextId ∉ s.activeTimers.map Prod.fst := fun hm =>
    absurd (htimn _ hm) (lt_irrefl _)
  cases hc : s.pendingApprovals c with
  | none =>
    cases ok with
    | true =>
      simp only [waitForApproval, hc, if_true]
      refine ⟨?_, ?_, ?_, ?_, ?_, ?_, ?_⟩
      all_goals dsimp only
      · intro r c' hm
        rcases List.mem_cons.mp hm with hm | hm
        · cases hm
          exact upd_same _ _ _
        · have hp := h.timerPending r c' hm
          have hne : c' ≠ c := fun he => by rw [he, hc] at hp; cases hp
          rw [upd_other _ _ _ _ hne]; exact hp
      · intro r c' hp
        by_cases he : c' = c
        · subst he; rw [upd_same] at hp; cases hp; exact List.mem_cons_self _ _
        · rw [upd_other _ _ _ _ he] at hp
          exact List.mem_cons_of_mem _ (h.pendingTimer r c' hp)
      · intro r c' hm
        rcases List.mem_cons.mp hm with hm | hm
        · cases hm; exact Nat.lt_succ_self _
        · exact Nat.lt_succ_of_lt (h.timerLt r c' hm)
      · intro r c' hm
        rcases List.mem_cons.mp hm with hm | hm
        · cases hm; exact hresn
        · exact h.timerUnresolved r c' hm
      · rw [List.map_cons]
        exact List.nodup_cons.mpr ⟨htimn', h.timerIdsNodup⟩
      · exact h.resIdsNodup
      · intro r hm; exact Nat.lt_succ_of_lt (h.resLt r hm)
    | false =>
      simp only [waitForApproval, hc, if_false, Bool.false_eq_true]
      have hmm : ∀ p : Nat × String,
          p ∈ clearTimer ((s.nextId, c) :: s.activeTimers) s.nextId c ↔
            p ∈ s.activeTimers := by
        intro p
        rw [mem_clearTimer]
        constructor
        · rintro ⟨hm, hne⟩
          rcases List.mem_cons.mp hm with hm | hm
          · exact absurd hm hne
          · exact hm
        · intro hm
          refine ⟨List.mem_cons_of_mem _ hm, fun he => ?_⟩
          subst he
          exact absurd (h.timerLt _ _ hm) (lt_irrefl _)
      refine ⟨?_, ?_, ?_, ?_, ?_, ?_, ?_⟩
      all_goals dsimp only
      · intro r c' hm
        have hm' := (hmm _).mp hm
        have hp := h.timerPending r c' hm'
        have hne : c' ≠ c := fun he => by rw [he, hc] at hp; cases hp
        rw [upd_other _ _ _ _ hne, upd_other _ _ _ _ hne]; exact hp
      · intro r c' hp
        by_cases he : c' = c
        · subst he; rw [upd_same] at hp; cases hp
        · rw [upd_other _ _ _ _ he, upd_other _ _ _ _ he] at hp
          exact (hmm _).mpr (h.pendingTimer r c' hp)
      · intro r c' hm
        exact Nat.lt_succ_of_lt (h.timerLt r c' ((hmm _).mp hm))
      · intro r c' hm
        have hm' := (hmm _).mp hm
        rw [ids_append]
        simp only [List.mem_append, List.mem_singleton]
        rintro (hr | hr)
        · exact h.timerUnresolved r c' hm' hr
        · rw [hr] at hm'; exact absurd (h.timerLt _ _ hm') (lt_irrefl _)
      · refine (clearTimer_map_fst_sublist _ _ _).nodup ?_
        rw [List.map_cons]
        exact List.nodup_cons.mpr ⟨htimn', h.timerIdsNodup⟩
      · rw [ids_append]; exact nodup_snoc h.resIdsNodup hresn
      · intro r hm
        rw [ids_append] at hm
        rcases List.mem_append.mp hm with hm | hm
        · exact Nat.lt_succ_of_lt (h.resLt r hm)
        · rw [List.mem_singleton.mp hm]; exact Nat.lt_succ_self _
  | some r0 =>
    have hr0t : (r0, c) ∈ s.activeTimers := h.pendingTimer r0 c hc
    have hr0lt : r0 < s.nextId := h.timerLt r0 c hr0t
    have hr0res : r0 ∉ ids s.resolutions := h.timerUnresolved r0 c hr0t
    have hclr : ∀ p : Nat × String, p ∈ clearTimer s.activeTimers r0 c →
        p ∈ s.activeTimers ∧ p.1 ≠ r0 := by
      rintro ⟨r, c'⟩ hm
      rcases mem_clearTimer.mp hm with ⟨hm', hne⟩
      refine ⟨hm', fun he => hne ?_⟩
      subst he
      rw [snd_eq_of_fst_nodup h.timerIdsNodup hm' hr0t]
    cases ok with
    | true =>
      simp only [waitForApproval, hc, if_true]
      refine ⟨?_, ?_, ?_, ?_, ?_, ?_, ?_⟩
      all_goals dsimp only
      · intro r c' hm
        rcases List.mem_cons.mp hm with hm | hm
        · cases hm; exact upd_same _ _ _
        · rcases hclr _ hm with ⟨hm', hne⟩
          have hp := h.timerPending r c' hm'
          have hnec : c' ≠ c := fun he => by
            rw [he, hc] at hp; cases hp; exact hne rfl
          rw [upd_other _ _ _ _ hnec]; exact hp
      · intro r c' hp
        by_cases he : c' = c
        · subst he; rw [upd_same] at hp; cases hp; exact List.mem_cons_self _ _
        · rw [upd_other _ _ _ _ he] at hp
          refine List.mem_cons_of_mem _ (mem_clearTimer.mpr
            ⟨h.pendingTimer r c' hp, fun hpe => he ?_⟩)
          cases hpe; rfl
      · intro r c' hm
        rcases List.mem_cons.mp hm with hm | hm
        · cases hm; exact Nat.lt_succ_self _
        · exact Nat.lt_succ_of_lt (h.timerLt r c' (hclr _ hm).1)
      · intro r c' hm
        rw [ids_append]
        simp only [List.mem_append, List.mem_singleton]
        rcases List.mem_cons.mp hm with hm | hm
        · cases hm
          rintro (hr | hr)
          · exact hresn hr
          · exact absurd hr.symm (Nat.ne_of_lt hr0lt)
        · rcases hclr _ hm with ⟨hm', hne⟩
          rintro (hr | hr)
          · exact h.timerUnresolved r c' hm' hr
          · exact hne hr
      · rw [List.map_cons]
        refine List.nodup_cons.mpr ⟨fun hm => ?_,
          (clearTimer_map_fst_sublist _ _ _).nodup h.timerIdsNodup⟩
        exact htimn' ((clearTimer_map_fst_sublist _ _ _).subset hm)
      · rw [ids_append]; exact nodup_snoc h.resIdsNodup hr0res
      · intro r hm
        rw [ids_append] at hm
        rcases List.mem_append.mp hm with hm | hm
        · exact Nat.lt_succ_of_lt (h.resLt r hm)
        · rw [List.mem_singleton.mp hm]; exact Nat.lt_succ_of_lt hr0lt
    | false =>
      simp only [waitForApproval, hc, if_false, Bool.false_eq_true]
      have hmm : ∀ p : Nat × String,
          p ∈ clearTimer ((s.nextId, c) :: clearTimer s.activeTimers r0 c)
              s.nextId c ↔
            p ∈ s.activeTimers ∧ p.1 ≠ r0 := by
        intro p
        rw [mem_clearTimer]
        constructor
        · rintro ⟨hm, hne⟩
          rcases List.mem_cons.mp hm with hm | hm
          · exact absurd hm hne
          · exact hclr _ hm
        · rintro ⟨hm, hne⟩
          refine ⟨List.mem_cons_of_mem _ (mem_clearTimer.mpr ⟨hm, fun he => hne ?_⟩),
            fun he => ?_⟩
          · cases he; rfl
          · subst he
            exact absurd (h.timerLt _ _ hm) (lt_irrefl _)
      refine ⟨?_, ?_, ?_, ?_, ?_, ?_, ?_⟩
      all_goals dsimp only
      · intro r c' hm
        rcases (hmm _).mp hm with ⟨hm', hne⟩
        have hp := h.timerPending r c' hm'
        have hnec : c' ≠ c := fun he => by
          rw [he, hc] at hp; cases hp; exact hne rfl
        rw [upd_other _ _ _ _ hnec, upd_other _ _ _ _ hnec]; exact hp
      · intro r c' hp
        by_cases he : c' = c
        · subst he; rw [upd_same] at hp; cases hp
        · rw [upd_other _ _ _ _ he, upd_other _ _ _ _ he] at hp
          refine (hmm _).mpr ⟨h.pendingTimer r c' hp, fun hre => he ?_⟩
          exact snd_eq_of_fst_nodup h.timerIdsNodup
            (hre ▸ h.pendingTimer r c' hp) hr0t
      · intro r c' hm
        exact Nat.lt_succ_of_lt (h.timerLt r c' ((hmm _).mp hm).1)
      · intro r c' hm
        rcases (hmm _).mp hm with ⟨hm', hne⟩
        rw [ids_append, ids_append]
        simp only [List.mem_append, List.mem_singleton]
        rintro ((hr | hr) | hr)
        · exact h.timerUnresolved r c' hm' hr
        · exact hne hr
        · rw [hr] at hm'; exact absurd (h.timerLt _ _ hm') (lt_irrefl _)
      · refine (clearTimer_map_fst_sublist _ _ _).nodup ?_
        rw [List.map_cons]
        refine List.nodup_cons.mpr ⟨fun hm => ?_,
          (clearTimer_map_fst_sublist _ _ _).nodup h.timerIdsNodup⟩
        exact htimn' ((clearTimer_map_fst_sublist _ _ _).subset hm)
      · rw [ids_append, ids_append]
        refine nodup_snoc (nodup_snoc h.resIdsNodup hr0res) ?_
        simp only [List.mem_append, List.mem_singleton]
        rintro (hm | hm)
        · exact hresn hm
        · exact absurd hm.symm (Nat.ne_of_lt hr0lt)
      · intro r hm
        rw [ids_append, ids_append] at hm
        simp only [List.mem_append, List.mem_singleton] at hm
        rcases hm with (hm | hm) | hm
        · exact Nat.lt_succ_of_lt (h.resLt r hm)
        · rw [hm]; exact Nat.lt_succ_of_lt hr0lt
        · rw [hm]; exact Nat.lt_succ_self _

theorem ainv_fire {s : ApprovalState} (h : AInv s) {r0 : Nat} {c : String}
    (hmem : (r0, c) ∈ s.activeTimers) : AInv (timerFire s r0 c) := by
  have hc : s.pendingApprovals c = some r0 := h.timerPending r0 c hmem
  have hr0res : r0 ∉ ids s.resolutions := h.timerUnresolved r0 c hmem
  have hclr : ∀ p : Nat × String, p ∈ clearTimer s.activeTimers r0 c →
      p ∈ s.activeTimers ∧ p.1 ≠ r0 := by
    rintro ⟨r, c'⟩ hm
    rcases mem_clearTimer.mp hm with ⟨hm', hne⟩
    refine ⟨hm', fun he => hne ?_⟩
    subst he
    rw [snd_eq_of_fst_nodup h.timerIdsNodup hm' hmem]
  refine ⟨?_, ?_, ?_, ?_, ?_, ?_, ?_⟩
  all_goals dsimp only [timerFire]
  · intro r c' hm
    rcases hclr _ hm with ⟨hm', hne⟩
    have hp := h.timerPending r c' hm'
    have hnec : c' ≠ c := fun he => by
      rw [he, hc] at hp; cases hp; exact hne rfl
    rw [upd_other _ _ _ _ hnec]; exact hp
  · intro r c' hp
    by_cases he : c' = c
    · subst he; rw [upd_same] at hp; cases hp
    · rw [upd_other _ _ _ _ he] at hp
      refine mem_clearTimer.mpr ⟨h.pendingTimer r c' hp, fun hre => he ?_⟩
      cases hre; rfl
  · intro r c' hm
    exact h.timerLt r c' (hclr _ hm).1
  · intro r c' hm
    rcases hclr _ hm with ⟨hm', hne⟩
    rw [ids_append]
    simp only [List.mem_append, List.mem_singleton]
    rintro (hr | hr)
    · exact h.timerUnresolved r c' hm' hr
    · exact hne hr
  · exact (clearTimer_map_fst_sublist _ _ _).nodup h.timerIdsNodup
  · rw [ids_append]
    exact nodup_snoc h.resIdsNodup hr0res
  · intro r hm
    rw [ids_append] at hm
    rcases List.mem_append.mp hm with hm | hm
    · exact h.resLt r hm
    · rw [List.mem_singleton.mp hm]; exact h.timerLt r0 c hmem

theorem ainv_reply {s : ApprovalState} (h : AInv s) (c text : String) :
    AInv (approvalReply s c text) := by
  cases hc : s.pendingApprovals c with
  | none => simpa [approvalReply, hc] using h
  | some r0 =>
    have hmem : (r0, c) ∈ s.activeTimers := h.pendingTimer r0 c hc
    have hr0res : r0 ∉ ids s.resolutions := h.timerUnresolved r0 c hmem
    have hclr : ∀ p : Nat × String, p ∈ clearTimer s.activeTimers r0 c →
        p ∈ s.activeTimers ∧ p.1 ≠ r0 := by
      rintro ⟨r, c'⟩ hm
      rcases mem_clearTimer.mp hm with ⟨hm', hne⟩
      refine ⟨hm', fun he => hne ?_⟩
      subst he
      rw [snd_eq_of_fst_nodup h.timerIdsNodup hm' hmem]
    simp only [approvalReply, hc]
    refine ⟨?_, ?_, ?_, ?_, ?_, ?_, ?_⟩
    all_goals dsimp only
    · intro r c' hm
      rcases hclr _ hm with ⟨hm', hne⟩
      have hp := h.timerPending r c' hm'
      have hnec : c' ≠ c := fun he => by
        rw [he, hc] at hp; cases hp; exact hne rfl
      rw [upd_other _ _ _ _ hnec]; exact hp
    · intro r c' hp
      by_cases he : c' = c
      · subst he; rw [upd_same] at hp; cases hp
      · rw [upd_other _ _ _ _ he] at hp
        refine mem_clearTimer.mpr ⟨h.pendingTimer r c' hp, fun hre => he ?_⟩
        cases hre; rfl
    · intro r c' hm
      exact h.timerLt r c' (hclr _ hm).1
    · intro r c' hm
      rcases hclr _ hm with ⟨hm', hne⟩
      rw [ids_append]
      simp only [List.mem_append, List.mem_singleton]
      rintro (hr | hr)
      · exact h.timerUnresolved r c' hm' hr
      · exact hne hr
    · exact (clearTimer_map_fst_sublist _ _ _).nodup h.timerIdsNodup
    · rw [ids_append]
      exact nodup_snoc h.resIdsNodup hr0res
    · intro r hm
      rw [ids_append] at hm
      rcases List.mem_append.mp hm with hm | hm
      · exact h.resLt r hm
      · rw [List.mem_singleton.mp hm]; exact h.timerLt r0 c hmem

theorem ainv_init : AInv approvalInit := by
  refine ⟨?_, ?_, ?_, ?_, ?_, ?_, ?_⟩ <;>
    simp [approvalInit, ids]

theorem ainv_reachable {s : ApprovalState} (h : AReachable s) : AInv s := by
  induction h with
  | init => exact ainv_init
  | step _ hstep ih =>
    cases hstep with
    | wait c ok => exact ainv_wait ih c ok
    | fire r c hm => exact ainv_fire ih hm
    | reply c text => exact ainv_reply ih c text

theorem coordInv_enqueue {s : CoordState} (h : CoordInv s) : CoordInv (coordEnqueue s) := by
  obtain ⟨h1, h2⟩ := h
  cases hp : s.processing with
  | none =>
    have hq : s.queue = [] := by
      by_contra hq
      have := h2 hq
      rw [hp] at this
      simp at this
    simp only [coordEnqueue, hp]
    constructor
    · dsimp only
      rw [hp, hq] at h1
      simp only [Option.toList_none, List.append_nil] at h1
      rw [hq]
      simp [h1, List.range_succ]
    · dsimp only
      rw [hq]
      intro hne
      exact absurd rfl hne
  | some r =>
    simp only [coordEnqueue, hp]
    constructor
    · dsimp only
      rw [hp] at h1
      rw [List.range_succ, ← h1]
      simp [List.append_assoc]
    · dsimp only
      intro _
      simp

theorem coordInv_finish {s : CoordState} (h : CoordInv s) : CoordInv (coordFinish s) := by
  obtain ⟨h1, h2⟩ := h
  cases hp : s.processing with
  | none =>
    simp only [coordFinish, hp]
    exact ⟨h1, h2⟩
  | some r =>
    simp only [coordFinish, hp]
    constructor
    · dsimp only
      rw [hp] at h1
      have hht : s.queue.head?.toList ++ s.queue.tail = s.queue := by
        cases s.queue <;> simp
      rw [List.append_assoc, hht]
      simpa [List.append_assoc] using h1
    · dsimp only
      intro hq
      cases hq' : s.queue with
      | nil => rw [hq'] at hq; simp at hq
      | cons a t => simp [hq']

theorem coordInv_reachable {s : CoordState} (h : CoordReachable s) : CoordInv s := by
  induction h with
  | init => exact ⟨by simp [coordInit], by simp [coordInit]⟩
  | enq _ ih => exact coordInv_enqueue ih
  | fin _ ih => exact coordInv_finish ih

/-- C1: for every session key, at most one Run is processing at any time
(the processing slot of the per-key coordinator state holds at most one run
by construction); all other enqueued runs are queued, the queue is only
populated while a run is processing, every queued run was enqueued after
the processing one, and completions happen in strict enqueue (FIFO) order:
in every reachable state the completion log is exactly the first
completed.length run ids in enqueue order. -/
theorem C1_run_serialization (s : CoordState) (h : CoordReachable s) :
    s.completed = List.range s.completed.length
    ∧ (s.processing = none → s.queue = [])
    ∧ (∀ r p, r ∈ s.queue → s.processing = some p → p < r) := by
  obtain ⟨h1, h2⟩ := coordInv_reachable h
  refine ⟨?_, ?_, ?_⟩
  · have hpre : s.completed = (List.range s.nextId).take s.completed.length := by
      rw [← h1, List.append_assoc, List.take_left]
    rw [List.take_range] at hpre
    have hlen := congrArg List.length hpre
    rw [List.length_range] at hlen
    conv_lhs => rw [hpre]
    rw [← hlen]
  · intro hp
    by_contra hq
    have := h2 hq
    rw [hp] at this
    simp at this
  · intro r p hr hp
    have hpw := List.pairwise_lt_range s.nextId
    rw [← h1, hp] at hpw
    have := (List.pairwise_append.mp hpw).2.2
    exact this p (by simp) r hr

/-- C1 witness: three runs enqueued, then the first completes; the
completion log is the FIFO prefix, and the queued run id 2 was enqueued
after the processing run id 1. -/
theorem C1_run_serialization_witness :
    (coordFinish (coordEnqueue (coordEnqueue (coordEnqueue coordInit)))).completed
      = List.range
          (coordFinish (coordEnqueue (coordEnqueue (coordEnqueue coordInit)))).completed.length
    ∧ 1 < 2 := by
  have h := C1_run_serialization _
    (CoordReachable.fin (CoordReachable.enq (CoordReachable.enq
      (CoordReachable.enq CoordReachable.init))))
  exact ⟨h.1, h.2.2 2 1 (by decide) (by decide)⟩

/-- C3: at most one pending approval exists per conversation at any time
(the pendingApprovals map holds one entry per chatId by construction), and
calling waitForApproval for a conversation that already has a pending
approval first resolves the stale one as no answer (null) and cancels its
timer, before the new registration takes the slot: the first resolution
appended is (r, none), the stale timer record is gone, and the entry for
the chat now belongs to the fresh registration (or was already removed
again on the send failure path). -/
theorem C3_approval_supersede (s : ApprovalState) (c : String) (r : Nat) (ok : Bool)
    (hreach : AReachable s) (h : s.pendingApprovals c = some r) :
    (waitForApproval s c ok).resolutions.take (s.resolutions.length + 1)
      = s.resolutions ++ [(r, none)]
    ∧ (r, c) ∉ (waitForApproval s c ok).activeTimers
    ∧ (waitForApproval s c ok).pendingApprovals c
        = (if ok then some s.nextId else none) := by
  have hinv := ainv_reachable hreach
  have hrt : (r, c) ∈ s.activeTimers := hinv.pendingTimer r c h
  have hrlt : r < s.nextId := hinv.timerLt r c hrt
  cases ok with
  | true =>
    simp only [waitForApproval, h, if_true]
    refine ⟨?_, ?_, ?_⟩
    · dsimp only
      rw [show s.resolutions.length + 1 = (s.resolutions ++ [(r, none)]).length by simp,
        List.take_length]
    · dsimp only
      intro hm
      rcases List.mem_cons.mp hm with hm | hm
      · have : r = s.nextId := congrArg Prod.fst hm
        exact absurd this (Nat.ne_of_lt hrlt)
      · exact absurd (mem_clearTimer.mp hm).2 (by simp)
    · dsimp only
      rw [upd_same]
  | false =>
    simp only [waitForApproval, h, if_false, Bool.false_eq_true]
    refine ⟨?_, ?_, ?_⟩
    · dsimp only
      rw [show s.resolutions.length + 1 = (s.resolutions ++ [(r, none)]).length by simp,
        List.take_left]
    · dsimp only
      intro hm
      rcases List.mem_cons.mp (mem_clearTimer.mp hm).1 with hm' | hm'
      · have : r = s.nextId := congrArg Prod.fst hm'
        exact absurd this (Nat.ne_of_lt hrlt)
      · exact absurd (mem_clearTimer.mp hm').2 (by simp)
    · dsimp only
      rw [upd_same]

/-- C3 witness: a second waitForApproval for the same chat, while the first
registration 0 is still pending, resolves registration 0 with null, drops
its timer, and installs the fresh registration. -/
theorem C3_approval_supersede_witness :
    ((waitForApproval (waitForApproval approvalInit "c" true) "c" true).resolutions.take
        ((waitForApproval approvalInit "c" true).resolutions.length + 1)
      = (waitForApproval approvalInit "c" true).resolutions ++ [(0, none)])
    ∧ (0, "c") ∉ (waitForApproval (waitForApproval approvalInit "c" true) "c" true).activeTimers
    ∧ (waitForApproval (waitForApproval approvalInit "c" true) "c" true).pendingApprovals "c"
        = some (waitForApproval approvalInit "c" true).nextId := by
  have h := C3_approval_supersede (waitForApproval approvalInit "c" true) "c" 0 true
    (AReachable.step AReachable.init (AStep.wait approvalInit "c" true)) (by decide)
  exact ⟨h.1, h.2.1, h.2.2⟩

/-- C5: every approval registration resolves at most once over the whole
history of any reachable state (the resolution ids are nodup), a
registration whose timer is still live is still unresolved, firing the
timeout resolves it with null (no answer), and an inbound reply resolves it
with the reply text, deletes the entry and removes the live timer, so the
timeout can never produce a second late resolution.  The 120000 ms default
fixes only the firing instant and has no counterpart in this untimed
model. -/
theorem C5_resolve_exactly_once (s : ApprovalState) (r : Nat) (c text : String)
    (hreach : AReachable s) :
    (ids s.resolutions).Nodup
    ∧ ((r, c) ∈ s.activeTimers → r ∉ ids s.resolutions)
    ∧ ((r, c) ∈ s.activeTimers →
        (timerFire s r c).resolutions = s.resolutions ++ [(r, none)])
    ∧ (s.pendingApprovals c = some r →
        (approvalReply s c text).resolutions = s.resolutions ++ [(r, some text)]
        ∧ (r, c) ∉ (approvalReply s c text).activeTimers
        ∧ (approvalReply s c text).pendingApprovals c = none) := by
  have hinv := ainv_reachable hreach
  refine ⟨hinv.resIdsNodup, hinv.timerUnresolved r c, fun _ => rfl, ?_⟩
  intro hp
  refine ⟨?_, ?_, ?_⟩
  · simp [approvalReply, hp]
  · simp [approvalReply, hp, mem_clearTimer]
  · simp [approvalReply, hp, upd_same]

/-- C5 witness: for the single live registration 0, its history is
unresolved, the timeout path appends (0, none), and the reply path appends
(0, some yes), clears the entry and drops the timer. -/
theorem C5_resolve_exactly_once_witness :
    (ids (waitForApproval approvalInit "c" true).resolutions).Nodup
    ∧ 0 ∉ ids (waitForApproval approvalInit "c" true).resolutions
    ∧ (timerFire (waitForApproval approvalInit "c" true) 0 "c").resolutions
        = (waitForApproval approvalInit "c" true).resolutions ++ [(0, none)]
    ∧ (approvalReply (waitForApproval approvalInit "c" true) "c" "yes").resolutions
        = (waitForApproval approvalInit "c" true).resolutions ++ [(0, some "yes")]
    ∧ (0, "c") ∉ (approvalReply (waitForApproval approvalInit "c" true) "c" "yes").activeTimers
    ∧ (approvalReply (waitForApproval approvalInit "c" true) "c" "yes").pendingApprovals "c"
        = none := by
  have h := C5_resolve_exactly_once (waitForApproval approvalInit "c" true) 0 "c" "yes"
    (AReachable.step AReachable.init (AStep.wait approvalInit "c" true))
  have hm : (0, "c") ∈ (waitForApproval approvalInit "c" true).activeTimers := by decide
  have hp : (waitForApproval approvalInit "c" true).pendingApprovals "c" = some 0 := by decide
  obtain ⟨h1, h2, h3, h4⟩ := h
  exact ⟨h1, h2 hm, h3 hm, (h4 hp).1, (h4 hp).2.1, (h4 hp).2.2⟩

/-- C4: an inbound message on a conversation with a pending approval is
consumed by the approval stage: its promise resolves with the message text,
the pending entry and its deadline timer are removed, and the message is
not additionally processed as a new user turn (no command handling, no run
enqueued, selection registries untouched). -/
theorem C4_approval_consumes (s : PipelineState) (c k text : String) (r : Nat)
    (h : s.approvals.pendingApprovals c = some r) :
    (onMessageDispatch s c k text).1 = Stage.approval
    ∧ (onMessageDispatch s c k text).2.approvals.resolutions
        = s.approvals.resolutions ++ [(r, some text)]
    ∧ (onMessageDispatch s c k text).2.approvals.pendingApprovals c = none
    ∧ (r, c) ∉ (onMessageDispatch s c k text).2.approvals.activeTimers
    ∧ (onMessageDispatch s c k text).2.cmdLog = s.cmdLog
    ∧ (onMessageDispatch s c k text).2.runQueue = s.runQueue
    ∧ (onMessageDispatch s c k text).2.modelSel = s.modelSel
    ∧ (onMessageDispatch s c k text).2.providerSel = s.providerSel := by
  simp only [onMessageDispatch, h]
  refine ⟨by trivial, ?_, ?_, ?_, by trivial, by trivial, by trivial, by trivial⟩
  · simp [approvalReply, h]
  · simp [approvalReply, h, upd_same]
  · simp [approvalReply, h, mem_clearTimer]

/-- C4 witness: with registration 0 pending for chat c, the message sure is
consumed by the approval stage and nothing else changes. -/
theorem C4_approval_consumes_witness :
    (onMessageDispatch pipelineEx "c" "k" "sure").1 = Stage.approval
    ∧ (onMessageDispatch pipelineEx "c" "k" "sure").2.approvals.resolutions
        = pipelineEx.approvals.resolutions ++ [(0, some "sure")]
    ∧ (onMessageDispatch pipelineEx "c" "k" "sure").2.approvals.pendingApprovals "c" = none
    ∧ (0, "c") ∉ (onMessageDispatch pipelineEx "c" "k" "sure").2.approvals.activeTimers
    ∧ (onMessageDispatch pipelineEx "c" "k" "sure").2.cmdLog = pipelineEx.cmdLog
    ∧ (onMessageDispatch pipelineEx "c" "k" "sure").2.runQueue = pipelineEx.runQueue
    ∧ (onMessageDispatch pipelineEx "c" "k" "sure").2.modelSel = pipelineEx.modelSel
    ∧ (onMessageDispatch pipelineEx "c" "k" "sure").2.providerSel = pipelineEx.providerSel :=
  C4_approval_consumes pipelineEx "c" "k" "sure" 0 (by decide)

/-- C10: every inbound message is consumed by exactly one stage, checked in
the fixed order approval, then selection, then command, then run: the stage
equations characterize which stage consumes the message, and the effect
equations show that exactly the consuming stage mutates its state while all
later (and earlier) stages are untouched. -/
theorem C10_dispatch_priority (s : PipelineState) (c k text : String) :
    ((onMessageDispatch s c k text).1 = Stage.approval
        ↔ (s.approvals.pendingApprovals c).isSome)
    ∧ ((onMessageDispatch s c k text).1 = Stage.selection
        ↔ s.approvals.pendingApprovals c = none
          ∧ ((s.modelSel.pending c).isSome ∨ (s.providerSel.pending c).isSome))
    ∧ ((onMessageDispatch s c k text).1 = Stage.command
        ↔ s.approvals.pendingApprovals c = none
          ∧ s.modelSel.pending c = none ∧ s.providerSel.pending c = none
          ∧ commandHandled text = true)
    ∧ ((onMessageDispatch s c k text).1 = Stage.run
        ↔ s.approvals.pendingApprovals c = none
          ∧ s.modelSel.pending c = none ∧ s.providerSel.pending c = none
          ∧ commandHandled text = false)
    ∧ ((onMessageDispatch s c k text).2.runQueue
        = if (onMessageDispatch s c k text).1 = Stage.run
            then s.runQueue ++ [(k, text)] else s.runQueue)
    ∧ ((onMessageDispatch s c k text).2.cmdLog
        = if (onMessageDispatch s c k text).1 = Stage.command
            then s.cmdLog ++ [text] else s.cmdLog)
    ∧ ((onMessageDispatch s c k text).2.approvals
        = if (s.approvals.pendingApprovals c).isSome
            then approvalReply s.approvals c text else s.approvals)
    ∧ ((onMessageDispatch s c k text).2.modelSel
        = if s.approvals.pendingApprovals c = none ∧ (s.modelSel.pending c).isSome
            then selReply s.modelSel c text else s.modelSel)
    ∧ ((onMessageDispatch s c k text).2.providerSel
        = if s.approvals.pendingApprovals c = none ∧ s.modelSel.pending c = none
              ∧ (s.providerSel.pending c).isSome
            then selReply s.providerSel c text else s.providerSel) := by
  cases ha : s.approvals.pendingApprovals c with
  | some ra => simp [onMessageDispatch, ha]
  | none =>
    cases hm : s.modelSel.pending c with
    | some rm => simp [onMessageDispatch, ha, hm]
    | none =>
      cases hpr : s.providerSel.pending c with
      | some rp => simp [onMessageDispatch, ha, hm, hpr]
      | none =>
        cases hcmd : commandHandled text with
        | true => simp [onMessageDispatch, ha, hm, hpr, hcmd]
        | false => simp [onMessageDispatch, ha, hm, hpr, hcmd]

/-- C2 counterexample: for a concrete scheduled job with invokeAgent true
and an adapter present, the cron handler does not submit the message
through the Run Coordinator entry point (enqueueRun) the way a normal
inbound message is submitted; it performs a direct runAndCollect call on
the inner agent instead. -/
theorem C2_counterexample :
    executeCronJob true cronJobEx
      ≠ CronEffect.agentThenSend (AgentCall.enqueueRun "wa:room" "daily summary") "room"
    ∧ usesRunCoordinator (executeCronJob true cronJobEx) = false
    ∧ (onMessageDispatch pipelineInit "room" "wa:room" "daily summary").2.runQueue
        = [("wa:room", "daily summary")] := by
  decide

/-- C2 amended: when a scheduled job fires with invokeAgent true, the
Orchestrator invokes the agent directly via runAndCollect with the job
session key (defaulting to cron:jobId), bypassing the Run Coordinator
queue, and delivers the resulting text to the target conversation; with
invokeAgent false it delivers the literal message text directly. -/
theorem C2_amended_cron_dispatch (j : CronJob) :
    (j.invokeAgent = true →
      executeCronJob true j
        = CronEffect.agentThenSend
            (AgentCall.runAndCollect (resolveCronSessionKey j.sessionKey j.jobId) j.message)
            j.chatId
      ∧ usesRunCoordinator (executeCronJob true j) = false)
    ∧ (j.invokeAgent = false →
      executeCronJob true j = CronEffect.sendLiteral j.chatId j.message) := by
  constructor
  · intro hi
    constructor
    · simp [executeCronJob, hi]
    · simp [executeCronJob, hi, usesRunCoordinator]
  · intro hi
    simp [executeCronJob, hi]

/-- C2 amended witness: the concrete invokeAgent job resolves to the direct
agent call with its own session key and target chat. -/
theorem C2_amended_cron_dispatch_witness :
    executeCronJob true cronJobEx
      = CronEffect.agentThenSend
          (AgentCall.runAndCollect
            (resolveCronSessionKey cronJobEx.sessionKey cronJobEx.jobId) cronJobEx.message)
          cronJobEx.chatId
    ∧ usesRunCoordinator (executeCronJob true cronJobEx) = false := by
  have h := C2_amended_cron_dispatch cronJobEx
  exact h.1 (by decide)

/-- C6: abort is idempotent for both provider variants: with nothing in
flight for the chat it returns false, raises nothing and leaves the state
untouched; with an in-flight query it signals exactly that abort
controller, removes the tracking entry (leaving other chats and the
session map alone) and returns true. -/
theorem C6_abort_idempotent (cs : ClaudeProviderState) (os : OpencodeProviderState)
    (chatId : String) :
    ((cs.abortControllers chatId = none →
        ClaudeProvider.abort cs chatId = (false, cs, none))
      ∧ (∀ ctl, cs.abortControllers chatId = some ctl →
        (ClaudeProvider.abort cs chatId).1 = true
        ∧ (ClaudeProvider.abort cs chatId).2.2 = some ctl
        ∧ (ClaudeProvider.abort cs chatId).2.1.abortControllers chatId = none
        ∧ (∀ c', c' ≠ chatId →
            (ClaudeProvider.abort cs chatId).2.1.abortControllers c'
              = cs.abortControllers c')
        ∧ (ClaudeProvider.abort cs chatId).2.1.sessions = cs.sessions
        ∧ (ClaudeProvider.abort cs chatId).2.1.currentModel = cs.currentModel))
    ∧ ((os.abortControllers chatId = none →
        OpencodeProvider.abort os chatId = (false, os, none))
      ∧ (∀ ctl, os.abortControllers chatId = some ctl →
        (OpencodeProvider.abort os chatId).1 = true
        ∧ (OpencodeProvider.abort os chatId).2.2 = some ctl
        ∧ (OpencodeProvider.abort os chatId).2.1.abortControllers chatId = none
        ∧ (∀ c', c' ≠ chatId →
            (OpencodeProvider.abort os chatId).2.1.abortControllers c'
              = os.abortControllers c')
        ∧ (OpencodeProvider.abort os chatId).2.1.sessions = os.sessions
        ∧ (OpencodeProvider.abort os chatId).2.1.mcpRegistered = os.mcpRegistered)) := by
  constructor
  · constructor
    · intro h
      simp [ClaudeProvider.abort, h]
    · intro ctl h
      refine ⟨?_, ?_, ?_, ?_, ?_, ?_⟩ <;>
        simp [ClaudeProvider.abort, h, upd_same]
      intro c' hne
      simp [upd_other _ _ _ _ hne]
  · constructor
    · intro h
      simp [OpencodeProvider.abort, h]
    · intro ctl h
      refine ⟨?_, ?_, ?_, ?_, ?_, ?_⟩ <;>
        simp [OpencodeProvider.abort, h, upd_same]
      intro c' hne
      simp [upd_other _ _ _ _ hne]

/-- C6 witness: aborting the idle provider states is a no-op returning
false; aborting the busy ones signals the tracked controller for chat1,
removes the entry and returns true, leaving the session maps unchanged. -/
theorem C6_abort_idempotent_witness :
    ClaudeProvider.abort claudeIdleEx "chat1" = (false, claudeIdleEx, none)
    ∧ OpencodeProvider.abort opencodeIdleEx "chat1" = (false, opencodeIdleEx, none)
    ∧ (ClaudeProvider.abort claudeBusyEx "chat1").1 = true
    ∧ (ClaudeProvider.abort claudeBusyEx "chat1").2.2 = some 7
    ∧ (ClaudeProvider.abort claudeBusyEx "chat1").2.1.abortControllers "chat1" = none
    ∧ (ClaudeProvider.abort claudeBusyEx "chat1").2.1.sessions = claudeBusyEx.sessions
    ∧ (OpencodeProvider.abort opencodeBusyEx "chat1").1 = true
    ∧ (OpencodeProvider.abort opencodeBusyEx "chat1").2.2 = some 4
    ∧ (OpencodeProvider.abort opencodeBusyEx "chat1").2.1.abortControllers "chat1" = none
    ∧ (OpencodeProvider.abort opencodeBusyEx "chat1").2.1.sessions = opencodeBusyEx.sessions := by
  have hidle := C6_abort_idempotent claudeIdleEx opencodeIdleEx "chat1"
  have hbusy := C6_abort_idempotent claudeBusyEx opencodeBusyEx "chat1"
  have hc := hbusy.1.2 7 (by decide)
  have ho := hbusy.2.2 4 (by decide)
  exact ⟨hidle.1.1 rfl, hidle.2.1 rfl, hc.1, hc.2.1, hc.2.2.1, hc.2.2.2.2.1,
    ho.1, ho.2.1, ho.2.2.1, ho.2.2.2.2.1⟩

/-- C7: switching the provider clears every tracked backend session token,
both because the agent session map is cleared and because the fresh
provider instance tracks no sessions, so any subsequent message for a
previously active session key starts a fresh backend context; the provider
configuration is read from the old provider and passed to the new one, the
provider kind and name are installed, and no other agent state changes. -/
theorem C7_switch_provider (a : AgentState) (name : String) :
    (switchProvider a name).provider.config = a.provider.config
    ∧ (∀ key, (switchProvider a name).provider.sessions key = none)
    ∧ (∀ key, (switchProvider a name).provider.abortControllers key = none)
    ∧ (∀ key, (switchProvider a name).sessions key = none)
    ∧ (switchProvider a name).providerName = name
    ∧ (switchProvider a name).provider.name = name
    ∧ (switchProvider a name).rest = a.rest := by
  refine ⟨rfl, fun _ => rfl, fun _ => rfl, fun _ => rfl, rfl, rfl, rfl⟩

/-- C8 code evaluation: registering a second pending selection for the same
chat (two argument-less /model invocations within the 30 second window)
does not resolve the first registration at all: after the second
registration the resolution log is still empty, then the timer of the
first registration fires, deletes the entry of the second registration and
resolves the first promise with null, and when the timer of the second
registration fires nothing is pending anymore, so registration 1 is never
resolved: the final log holds only (0, none) while no entry and no timer
remain. -/
theorem C8_selection_overwrite_eval :
    (selRegister (selRegister selInit "c") "c").resolutions = []
    ∧ (selRegister (selRegister selInit "c") "c").pending "c" = some 1
    ∧ (selTimerFire (selRegister (selRegister selInit "c") "c") 0 "c").resolutions
        = [(0, none)]
    ∧ (selTimerFire (selRegister (selRegister selInit "c") "c") 0 "c").pending "c" = none
    ∧ (selTimerFire (selTimerFire (selRegister (selRegister selInit "c") "c") 0 "c") 1 "c").resolutions
        = [(0, none)]
    ∧ (selTimerFire (selTimerFire (selRegister (selRegister selInit "c") "c") 0 "c") 1 "c").timers
        = []
    ∧ (selTimerFire (selTimerFire (selRegister (selRegister selInit "c") "c") 0 "c") 1 "c").pending "c"
        = none := by
  decide

theorem ocRun_cons (s : OcStreamState) (e : OcPart) (es : List OcPart) :
    ocRun s (e :: es)
      = ((ocRun (ocStep s e).1 es).1, (ocStep s e).2 ++ (ocRun (ocStep s e).1 es).2) := rfl

theorem toolUseCount_nil (tid : String) : toolUseCount tid [] = 0 := rfl

theorem toolUseCount_append (tid : String) (l1 l2 : List OcOut) :
    toolUseCount tid (l1 ++ l2) = toolUseCount tid l1 + toolUseCount tid l2 := by
  simp [toolUseCount, List.count_append]

theorem toolUseCount_textDelta (tid pid : String) (d : List Char) (b : Bool) :
    toolUseCount tid [OcOut.textDelta pid d b] = 0 := by
  simp [toolUseCount, List.count_singleton]

theorem toolUseCount_toolRes (tid t : String) :
    toolUseCount tid [OcOut.toolRes t] = 0 := by
  simp [toolUseCount, List.count_singleton]

theorem toolUseCount_toolUse (tid t : String) :
    toolUseCount tid [OcOut.toolUse t] = if t = tid then 1 else 0 := by
  by_cases h : t = tid <;> simp [toolUseCount, List.count_singleton, h]

theorem ocRun_tool_notin (tid : String) :
    ∀ (es : List OcPart) (s : OcStreamState), tid ∈ s.yieldedToolCalls →
      toolUseCount tid (ocRun s es).2 = 0 := by
  intro es
  induction es with
  | nil => intro s _; rfl
  | cons e es ih =>
    intro s h
    rw [ocRun_cons]
    dsimp only
    rw [toolUseCount_append]
    have hstate : tid ∈ (ocStep s e).1.yieldedToolCalls
        ∧ toolUseCount tid (ocStep s e).2 = 0 := by
      cases e with
      | text pid full =>
        by_cases hlt : s.lastYieldedLength pid < full.length <;>
          simp [ocStep, hlt, toolUseCount_textDelta, toolUseCount_nil, h]
      | reasoning pid full =>
        by_cases hlt : s.lastYieldedLength pid < full.length <;>
          simp [ocStep, hlt, toolUseCount_textDelta, toolUseCount_nil, h]
      | tool t pending =>
        by_cases hmem : t ∈ s.yieldedToolCalls
        · simp [ocStep, hmem, toolUseCount_nil, h]
        · cases pending with
          | true => simp [ocStep, hmem, toolUseCount_nil, h]
          | false =>
            have hne : t ≠ tid := fun he => hmem (he ▸ h)
            simp [ocStep, hmem, toolUseCount_toolUse, hne, h, List.mem_cons]
      | toolResult t => simp [ocStep, toolUseCount_toolRes, h]
    rw [hstate.2, ih _ hstate.1]

theorem ocRun_tool_le_one (tid : String) :
    ∀ (es : List OcPart) (s : OcStreamState), toolUseCount tid (ocRun s es).2 ≤ 1 := by
  intro es
  induction es with
  | nil => intro s; simp [ocRun, toolUseCount_nil]
  | cons e es ih =>
    intro s
    rw [ocRun_cons]
    dsimp only
    rw [toolUseCount_append]
    cases e with
    | text pid full =>
      by_cases hlt : s.lastYieldedLength pid < full.length <;>
        simpa [ocStep, hlt, toolUseCount_textDelta, toolUseCount_nil] using ih _
    | reasoning pid full =>
      by_cases hlt : s.lastYieldedLength pid < full.length <;>
        simpa [ocStep, hlt, toolUseCount_textDelta, toolUseCount_nil] using ih _
    | tool t pending =>
      by_cases hmem : t ∈ s.yieldedToolCalls
      · simpa [ocStep, hmem, toolUseCount_nil] using ih _
      · cases pending with
        | true => simpa [ocStep, hmem, toolUseCount_nil] using ih _
        | false =>
          by_cases hte : t = tid
          · subst hte
            have h0 := ocRun_tool_notin t es
              { s with yieldedToolCalls := t :: s.yieldedToolCalls } (by simp)
            simp [ocStep, hmem, toolUseCount_toolUse, h0]
          · simpa [ocStep, hmem, toolUseCount_toolUse, hte] using ih _
    | toolResult t => simpa [ocStep, toolUseCount_toolRes] using ih _

theorem deltasFor_append (pid : String) (l1 l2 : List OcOut) :
    deltasFor pid (l1 ++ l2) = deltasFor pid l1 ++ deltasFor pid l2 := by
  simp [deltasFor]

theorem deltasFor_textDelta_self (pid : String) (d : List Char) :
    deltasFor pid [OcOut.textDelta pid d false] = [d] := by
  simp [deltasFor]

theorem deltasFor_textDelta_other (pid qid : String) (d : List Char) (b : Bool)
    (h : qid ≠ pid ∨ b = true) : deltasFor pid [OcOut.textDelta qid d b] = [] := by
  rcases h with h | h
  · cases b <;> simp [deltasFor, h]
  · subst h; simp [deltasFor]

theorem ocRun_text_concat (pid : String) :
    ∀ (es : List OcPart) (s : OcStreamState) (t : List Char),
      s.lastYieldedLength pid = t.length →
      growsFrom t (snapshotsFor pid es) →
      reasoningFreeFor pid es →
      t ++ (deltasFor pid (ocRun s es).2).flatten
        = (snapshotsFor pid es).getLastD t := by
  intro es
  induction es with
  | nil =>
    intro s t _ _ _
    simp [ocRun, deltasFor, snapshotsFor]
  | cons e es ih =>
    intro s t hlen hg hrf
    have hrf' : reasoningFreeFor pid es := fun f hm => hrf f (List.mem_cons_of_mem _ hm)
    rw [ocRun_cons]
    dsimp only
    rw [deltasFor_append]
    cases e with
    | text qid full =>
      by_cases hq : qid = pid
      · subst hq
        have hsnap : snapshotsFor qid (OcPart.text qid full :: es)
            = full :: snapshotsFor qid es := by simp [snapshotsFor]
        rw [hsnap] at hg ⊢
        obtain ⟨⟨u, hu⟩, hg'⟩ := hg
        rw [List.getLastD_cons]
        by_cases hlt : s.lastYieldedLength qid < full.length
        · have hstep : ocStep s (OcPart.text qid full)
              = ({ s with lastYieldedLength :=
                     fun x => if x = qid then full.length else s.lastYieldedLength x },
                 [OcOut.textDelta qid (full.drop (s.lastYieldedLength qid)) false]) := by
            simp [ocStep, hlt]
          rw [hstep]
          dsimp only
          rw [deltasFor_textDelta_self, List.singleton_append, List.flatten_cons]
          have hih := ih { s with lastYieldedLength :=
                fun x => if x = qid then full.length else s.lastYieldedLength x }
              full (by simp) hg' hrf'
          rw [hu] at hih
          rw [List.append_assoc] at hih
          rw [hlen, hu, List.drop_left]
          exact hih
        · have hfull : full = t := by
            have hle : full.length ≤ s.lastYieldedLength qid := Nat.le_of_not_lt hlt
            rw [hlen, hu] at hle
            simp only [List.length_append] at hle
            have hu0 : u = [] := List.eq_nil_of_length_eq_zero (by omega)
            rw [hu, hu0, List.append_nil]
          have hstep : ocStep s (OcPart.text qid full) = (s, []) := by
            simp [ocStep, hlt]
          rw [hstep]
          dsimp only
          rw [show deltasFor qid ([] : List OcOut) = [] from rfl, List.nil_append]
          have hih := ih s t hlen (hfull ▸ hg') hrf'
          rw [hfull]
          exact hih
      · have hsnap : snapshotsFor pid (OcPart.text qid full :: es)
            = snapshotsFor pid es := by simp [snapshotsFor, hq]
        rw [hsnap] at hg ⊢
        by_cases hlt : s.lastYieldedLength qid < full.length
        · have hstep : ocStep s (OcPart.text qid full)
              = ({ s with lastYieldedLength :=
                     fun x => if x = qid then full.length else s.lastYieldedLength x },
                 [OcOut.textDelta qid (full.drop (s.lastYieldedLength qid)) false]) := by
            simp [ocStep, hlt]
          rw [hstep]
          dsimp only
          rw [deltasFor_textDelta_other pid qid _ _ (Or.inl hq), List.nil_append]
          exact ih _ t (by simp [Ne.symm hq, hlen]) hg hrf'
        · have hstep : ocStep s (OcPart.text qid full) = (s, []) := by
            simp [ocStep, hlt]
          rw [hstep]
          dsimp only
          rw [show deltasFor pid ([] : List OcOut) = [] from rfl, List.nil_append]
          exact ih s t hlen hg hrf'
    | reasoning qid full =>
      have hqid : qid ≠ pid := by
        intro he
        subst he
        exact hrf full (List.mem_cons_self _ _)
      have hsnap : snapshotsFor pid (OcPart.reasoning qid full :: es)
          = snapshotsFor pid es := by simp [snapshotsFor]
      rw [hsnap] at hg ⊢
      by_cases hlt : s.lastYieldedLength qid < full.length
      · have hstep : ocStep s (OcPart.reasoning qid full)
            = ({ s with lastYieldedLength :=
                   fun x => if x = qid then full.length else s.lastYieldedLength x },
               [OcOut.textDelta qid (full.drop (s.lastYieldedLength qid)) true]) := by
          simp [ocStep, hlt]
        rw [hstep]
        dsimp only
        rw [deltasFor_textDelta_other pid qid _ _ (Or.inr rfl), List.nil_append]
        exact ih _ t (by simp [Ne.symm hqid, hlen]) hg hrf'
      · have hstep : ocStep s (OcPart.reasoning qid full) = (s, []) := by
          simp [ocStep, hlt]
        rw [hstep]
        dsimp only
        rw [show deltasFor pid ([] : List OcOut) = [] from rfl, List.nil_append]
        exact ih s t hlen hg hrf'
    | tool tl pending =>
      have hsnap : snapshotsFor pid (OcPart.tool tl pending :: es)
          = snapshotsFor pid es := by simp [snapshotsFor]
      rw [hsnap] at hg ⊢
      by_cases hmem : tl ∈ s.yieldedToolCalls
      · have hstep : ocStep s (OcPart.tool tl pending) = (s, []) := by
          simp [ocStep, hmem]
        rw [hstep]
        dsimp only
        rw [show deltasFor pid ([] : List OcOut) = [] from rfl, List.nil_append]
        exact ih s t hlen hg hrf'
      · cases pending with
        | true =>
          have hstep : ocStep s (OcPart.tool tl true) = (s, []) := by
            simp [ocStep, hmem]
          rw [hstep]
          dsimp only
          rw [show deltasFor pid ([] : List OcOut) = [] from rfl, List.nil_append]
          exact ih s t hlen hg hrf'
        | false =>
          have hstep : ocStep s (OcPart.tool tl false)
              = ({ s with yieldedToolCalls := tl :: s.yieldedToolCalls },
                 [OcOut.toolUse tl]) := by
            simp [ocStep, hmem]
          rw [hstep]
          dsimp only
          rw [show deltasFor pid [OcOut.toolUse tl] = [] from by simp [deltasFor],
            List.nil_append]
          exact ih _ t hlen hg hrf'
    | toolResult tl =>
      have hsnap : snapshotsFor pid (OcPart.toolResult tl :: es)
          = snapshotsFor pid es := by simp [snapshotsFor]
      rw [hsnap] at hg ⊢
      rw [show ocStep s (OcPart.toolResult tl) = (s, [OcOut.toolRes tl]) from rfl]
      dsimp only
      rw [show deltasFor pid [OcOut.toolRes tl] = [] from by simp [deltasFor],
        List.nil_append]
      exact ih s t hlen hg hrf'

/-- C9: for an opencode query stream whose cumulative text snapshots for a
part grow monotonically (each snapshot extends the previous), the
concatenation of the text deltas the adapter yields for that part equals
the final cumulative snapshot of the part, and any tool invocation id is
announced as a tool use start at most once no matter how often the backend
repeats it. -/
theorem C9_stream_normalization (es : List OcPart) (pid tid : String)
    (hg : growsFrom [] (snapshotsFor pid es))
    (hrf : reasoningFreeFor pid es) :
    (deltasFor pid (ocRun ocInit es).2).flatten = (snapshotsFor pid es).getLastD []
    ∧ toolUseCount tid (ocRun ocInit es).2 ≤ 1 := by
  constructor
  · have h := ocRun_text_concat pid es ocInit [] rfl hg hrf
    simpa using h
  · exact ocRun_tool_le_one tid es ocInit

/-- C9 witness: a stream with three growing snapshots of part p1 and three
announcements of tool t1 (one of them still pending) joins to the final
snapshot and announces the tool once. -/
theorem C9_stream_normalization_witness :
    (deltasFor "p1" (ocRun ocInit ocStreamEx).2).flatten
      = (snapshotsFor "p1" ocStreamEx).getLastD []
    ∧ toolUseCount "t1" (ocRun ocInit ocStreamEx).2 ≤ 1 := by
  have hg : growsFrom [] (snapshotsFor "p1" ocStreamEx) := by
    show growsFrom [] ["Hel".toList, "Hello ".toList, "Hello world".toList]
    exact ⟨⟨"Hel".toList, by decide⟩, ⟨"lo ".toList, by decide⟩,
      ⟨"world".toList, by decide⟩, trivial⟩
  have hrf : reasoningFreeFor "p1" ocStreamEx := by
    intro f hf
    simp [ocStreamEx] at hf
  exact C9_stream_normalization ocStreamEx "p1" "t1" hg hrf

end SecureOpenclaw
